import Mathlib

/-!
Shallow embedding of the eth-abi decoding core (`src/eth_abi/decoding.py`)
and its type-string processor (`src/eth_abi/utils/parsing.py`), with
theorems settling the specification claims about them.

Python strings are embedded as `List Char`, byte strings as `List Nat`
(each entry a byte value), and the `BytesIO` stream as an immutable byte
list plus a cursor.  Fallible code returns `Except`.
-/

namespace EthAbi

/-- Classified decode errors (`eth_abi.exceptions`). -/
inductive Err where
  | insufficientData
  | nonEmptyPadding
  deriving DecidableEq

abbrev Byte := Nat

/-- The octet stream: immutable contents plus a cursor.  This models
`io.BytesIO` restricted to the three operations the decoders use
(`read`, `seek`, `tell`). -/
structure Stream where
  data : List Byte
  pos : Nat
  deriving DecidableEq

/-- `stream.read(n)`: up to `n` bytes starting at the cursor; the cursor
advances by the number of bytes actually returned. -/
def Stream.read (s : Stream) (n : Nat) : List Byte × Stream :=
  let chunk := (s.data.drop s.pos).take n
  (chunk, { s with pos := s.pos + chunk.length })

/-- `stream.seek(p)` (absolute position). -/
def Stream.seek (s : Stream) (p : Nat) : Stream := { s with pos := p }

/-- `stream.tell()`. -/
def Stream.tell (s : Stream) : Nat := s.pos

/-- Modelled from the spec: `big_endian_to_int` from `eth_abi.utils.numeric`
(the numeric helpers are repository code not under `src/`): the big-endian
interpretation of a byte string as an unbounded non-negative integer. -/
def big_endian_to_int (bs : List Byte) : Nat :=
  bs.foldl (fun acc b => acc * 256 + b) 0

/-- Modelled from the spec: `ceil32` from `eth_abi.utils.numeric`: round up
to the next 32-byte boundary. -/
def ceil32 (n : Nat) : Nat := if n % 32 = 0 then n else n + 32 - n % 32

/-- Modelled from the spec: fixed-width big-endian serialization of an
integer (`int_to_big_endian` left-padded with zero bytes, as in `zpad32`);
used to construct concrete encodings in the theorems below. -/
def beWord : Nat → Nat → List Byte
  | 0, _ => []
  | k + 1, n => beWord k (n / 256) ++ [n % 256]

/-- Lowercase hexadecimal digit for a value below 16. -/
def hexDigit (n : Nat) : Char :=
  if n < 10 then Char.ofNat (48 + n) else Char.ofNat (87 + n)

/-- Modelled from the spec: `eth_utils.to_normalized_address` (an external
collaborator of the codec; per the spec the "normalized" surface of an
address is its lowercase hexadecimal rendering): the characters `0x`
followed by two lowercase hex digits per input byte. -/
def to_normalized_address (bs : List Byte) : List Char :=
  '0' :: 'x' :: bs.foldr (fun b acc => hexDigit (b / 16) :: hexDigit (b % 16) :: acc) []

/-- Decoded Python values: integers, booleans, byte strings, text strings
(the address decoder returns hex text), and tuples. -/
inductive Value where
  | int (i : Int)
  | bool (b : Bool)
  | bytes (bs : List Byte)
  | str (cs : List Char)
  | tuple (vs : List Value)

/-- `FixedByteSizeDecoder.read_data_from_stream`: read exactly
`data_byte_size` bytes or fail with `InsufficientDataBytes`. -/
def read_data_from_stream (data_byte_size : Nat) (s : Stream) :
    Except Err (List Byte × Stream) :=
  let (data, s') := s.read data_byte_size
  if data.length ≠ data_byte_size then .error .insufficientData
  else .ok (data, s')

/-- `FixedByteSizeDecoder.normalize_raw_data`: split the raw word into value
bytes and padding bytes (high side when big-endian, low side otherwise) and
fail with `NonEmptyPaddingBytes` unless every padding byte is zero. -/
def normalize_raw_data (data_byte_size value_byte_size : Nat)
    (is_big_endian : Bool) (raw : List Byte) : Except Err (List Byte) :=
  let padding_size := data_byte_size - value_byte_size
  let padding_bytes := if is_big_endian then raw.take padding_size else raw.drop value_byte_size
  let data := if is_big_endian then raw.drop padding_size else raw.take value_byte_size
  if padding_bytes ≠ List.replicate padding_size 0 then .error .nonEmptyPadding
  else .ok data

/-- `SingleDecoder.decode` specialized to `Fixed32ByteSizeDecoder`
(`data_byte_size = 32`): read the 32-byte word, check/strip the padding,
and apply the class's `decoder_fn`. -/
def fixed32_decode (value_bit_size : Nat) (is_big_endian : Bool)
    (decoder_fn : List Byte → Except Err Value) (s : Stream) :
    Except Err (Value × Stream) := do
  let (raw, s1) ← read_data_from_stream 32 s
  let data ← normalize_raw_data 32 (value_bit_size / 8) is_big_endian raw
  let v ← decoder_fn data
  .ok (v, s1)

/-- `UIntDecoder`'s pipeline with the raw integer result exposed
(`decode_uint_256` is this at `value_bit_size = 256`). -/
def decode_uint_raw (value_bit_size : Nat) (s : Stream) :
    Except Err (Nat × Stream) := do
  let (raw, s1) ← read_data_from_stream 32 s
  let data ← normalize_raw_data 32 (value_bit_size / 8) true raw
  .ok (big_endian_to_int data, s1)

/-- `decode_uint_256 = UIntDecoder.as_decoder(value_bit_size=256)`. -/
def decode_uint_256 (s : Stream) : Except Err (Nat × Stream) :=
  decode_uint_raw 256 s

/-- `IntDecoder.decoder_fn`: two's-complement reinterpretation of the
big-endian value of the (already padding-stripped) value bytes. -/
def int_decoder_fn (value_bit_size : Nat) (data : List Byte) : Except Err Value :=
  let value := big_endian_to_int data
  if value ≥ 2 ^ (value_bit_size - 1) then .ok (.int ((value : Int) - 2 ^ value_bit_size))
  else .ok (.int value)

/-- `BooleanDecoder.decoder_fn`. -/
def bool_decoder_fn (data : List Byte) : Except Err Value :=
  if data = [0] then .ok (.bool false)
  else if data = [1] then .ok (.bool true)
  else .error .nonEmptyPadding

/-- `AddressDecoder.decoder_fn = to_normalized_address`. -/
def address_decoder_fn (data : List Byte) : Except Err Value :=
  .ok (.str (to_normalized_address data))

/-- `BytesDecoder.decoder_fn` (identity). -/
def bytes_decoder_fn (data : List Byte) : Except Err Value :=
  .ok (.bytes data)

/-- The decoder objects `get_decoder_for_type` can assemble, one
constructor per decoder class in `src/eth_abi/decoding.py`.
`StringDecoder` covers both `decode_string` and `decode_bytes`, which are
the same instance in the source. -/
inductive Decoder where
  | UIntDecoder (value_bit_size : Nat)
  | IntDecoder (value_bit_size : Nat)
  | BooleanDecoder
  | AddressDecoder
  | BytesDecoder (value_bit_size : Nat)
  | StringDecoder
  | SizedArrayDecoder (array_size : Nat) (sub_decoder : Decoder)
  | DynamicArrayDecoder (sub_decoder : Decoder)
  deriving DecidableEq

/-- Run a decoding function `count` times in sequence, threading the
stream; this is the `for _ in range(...)` loop of the array decoders. -/
def decodeTimes (f : Stream → Except Err (Value × Stream)) :
    Nat → Stream → Except Err (List Value × Stream)
  | 0, s => .ok ([], s)
  | n + 1, s => do
    let (v, s1) ← f s
    let (vs, s2) ← decodeTimes f n s1
    .ok (v :: vs, s2)

/-- The `decode` method of each decoder class. -/
def Decoder.decode : Decoder → Stream → Except Err (Value × Stream)
  | .UIntDecoder bits, s =>
    match decode_uint_raw bits s with
    | .ok (n, s') => .ok (.int (n : Int), s')
    | .error e => .error e
  | .IntDecoder bits, s => fixed32_decode bits true (int_decoder_fn bits) s
  | .BooleanDecoder, s => fixed32_decode 8 true bool_decoder_fn s
  | .AddressDecoder, s => fixed32_decode 160 true address_decoder_fn s
  | .BytesDecoder bits, s => fixed32_decode bits false bytes_decoder_fn s
  | .StringDecoder, s => do
    let (data_length, s1) ← decode_uint_256 s
    let padded_length := ceil32 data_length
    let (data, s2) := s1.read padded_length
    if data.length < padded_length then .error .insufficientData
    else .ok (.bytes (data.take data_length), s2)
  | .SizedArrayDecoder array_size sub, s =>
    match decodeTimes sub.decode array_size s with
    | .ok (vs, s') => .ok (.tuple vs, s')
    | .error e => .error e
  | .DynamicArrayDecoder sub, s => do
    let (array_size, s1) ← decode_uint_256 s
    match decodeTimes sub.decode array_size s1 with
    | .ok (vs, s') => .ok (.tuple vs, s')
    | .error e => .error e

/-- `HeadTailDecoder.decode`: read a `uint256` offset, remember the anchor,
seek to the (absolute) offset, decode the body, seek back to the anchor. -/
def head_tail_decode (sub_decoder : Decoder) (s : Stream) :
    Except Err (Value × Stream) := do
  let (start_pos, s1) ← decode_uint_256 s
  let anchor_pos := s1.tell
  let s2 := s1.seek start_pos
  let (value, s3) ← sub_decoder.decode s2
  .ok (value, s3.seek anchor_pos)

/-- The test `isinstance(decoder, (DynamicArrayDecoder, StringDecoder))`
used by `MultiDecoder.decode` to decide which members go through a
`HeadTailDecoder`. -/
def Decoder.isWrappedDynamic : Decoder → Bool
  | .DynamicArrayDecoder _ => true
  | .StringDecoder => true
  | _ => false

/-- `MultiDecoder.decode`: decode each member in order, wrapping
dynamic-array and string decoders in a fresh `HeadTailDecoder`. -/
def multi_decode : List Decoder → Stream → Except Err (List Value × Stream)
  | [], s => .ok ([], s)
  | d :: ds, s => do
    let (v, s1) ← if d.isWrappedDynamic then head_tail_decode d s else d.decode s
    let (vs, s2) ← multi_decode ds s1
    .ok (v :: vs, s2)

/-- `int(...)` on the digit strings produced by type parsing. -/
def digitsVal (cs : List Char) : Nat :=
  cs.foldl (fun a c => a * 10 + (c.toNat - 48)) 0

/-- `int(s)` restricted to the plain decimal strings that occur here. -/
def str_to_nat (cs : List Char) : Option Nat :=
  if !cs.isEmpty && cs.all Char.isDigit then some (digitsVal cs) else none

/-- `get_decoder_for_type`, with an explicit recursion bound.  The Python
recurses on `arrlist[:-1]`; a bound equal to `arrlist.length` always
suffices, so the `none`/fuel-exhausted branches below are unreachable from
`get_decoder_for_type`. -/
def get_decoder_aux : Nat → List Char → List Char → List (List Nat) →
    Except String Decoder
  | _, base, sub, [] =>
    if base = "address".toList then .ok .AddressDecoder
    else if base = "bool".toList then .ok .BooleanDecoder
    else if base = "bytes".toList then
      if !sub.isEmpty then
        match str_to_nat sub with
        | some k => .ok (.BytesDecoder (k * 8))
        | none => .error "invalid bytes size"
      else .ok .StringDecoder
    else if base = "int".toList then
      match str_to_nat sub with
      | some k => .ok (.IntDecoder k)
      | none => .error "invalid int size"
    else if base = "string".toList then .ok .StringDecoder
    else if base = "uint".toList then
      match str_to_nat sub with
      | some k => .ok (.UIntDecoder k)
      | none => .error "invalid uint size"
    else .error "Unsupported type"
  | 0, _, _, _ :: _ => .error "recursion bound exhausted"
  | fuel + 1, base, sub, a :: as => do
    let sub_decoder ← get_decoder_aux fuel base sub (a :: as).dropLast
    match (a :: as).getLast? with
    | some [] => .ok (.DynamicArrayDecoder sub_decoder)
    | some (k :: _) => .ok (.SizedArrayDecoder k sub_decoder)
    | none => .error "unreachable"

/-- `get_decoder_for_type(base, sub, arrlist)` from `src/eth_abi/decoding.py`. -/
def get_decoder_for_type (base sub : List Char) (arrlist : List (List Nat)) :
    Except String Decoder :=
  get_decoder_aux arrlist.length base sub arrlist

/-- The character class `[a-z]` of the base-type component of
`TYPE_COMPONENTS_RE`. -/
def isLowerAlpha (c : Char) : Bool := 'a' ≤ c && c ≤ 'z'

/-- The size component `[0-9]*x?[0-9]*` of `TYPE_COMPONENTS_RE`, matched
greedily at the front of `cs`; returns the matched text and the rest. -/
def takeSize (cs : List Char) : List Char × List Char :=
  let d1 := cs.takeWhile Char.isDigit
  match cs.dropWhile Char.isDigit with
  | 'x' :: r2 => (d1 ++ 'x' :: r2.takeWhile Char.isDigit, r2.dropWhile Char.isDigit)
  | r1 => (d1, r1)

/-- One `\[[0-9]*\]` group matched at the front of `cs` (the unit of both
the array component of `TYPE_COMPONENTS_RE` and `ARR_COMPONENT_RE`). -/
def takeArrayGroup : List Char → Option (List Char × List Char)
  | '[' :: rest =>
    match rest.dropWhile Char.isDigit with
    | ']' :: r2 => some ('[' :: (rest.takeWhile Char.isDigit ++ [']']), r2)
    | _ => none
  | _ => none

/-- The array component `((\[[0-9]*\])*)` matched greedily at the front of
`cs`: the concatenation of the leading well-formed `[digits]` groups.  The
recursion bound `fuel` only needs to be at least `cs.length`, since every
group consumes at least two characters. -/
def takeArrAux : Nat → List Char → List Char × List Char
  | 0, cs => ([], cs)
  | fuel + 1, cs =>
    match takeArrayGroup cs with
    | some (g, rest) =>
      let (gs, r) := takeArrAux fuel rest
      (g ++ gs, r)
    | none => ([], cs)

def takeArr (cs : List Char) : List Char × List Char := takeArrAux cs.length cs

/-- `TYPE_COMPONENTS_RE.match(typ).groups()` (the fourth group, the last
repetition of the array group, is unused by the source).  `re.match` only
anchors at the start: characters after the matched prefix are ignored. -/
def type_components (cs : List Char) : List Char × List Char × List Char :=
  let base := cs.takeWhile isLowerAlpha
  let rest0 := cs.dropWhile isLowerAlpha
  let (sub, rest1) := takeSize rest0
  let (arr, _) := takeArr rest1
  (base, sub, arr)

/-- `ARR_COMPONENT_RE.findall`: scan left to right, collecting every
`\[[0-9]*\]` match and skipping one character where no match starts.
`fuel ≥ cs.length` suffices, as every step consumes at least one
character. -/
def findallAux : Nat → List Char → List (List Char)
  | 0, _ => []
  | fuel + 1, cs =>
    match takeArrayGroup cs with
    | some (g, rest) => g :: findallAux fuel rest
    | none =>
      match cs with
      | [] => []
      | _ :: rest => findallAux fuel rest

def arr_findall (cs : List Char) : List (List Char) := findallAux cs.length cs

/-- `OPTIONAL_SIZE_RE = ^[0-9]*$`. -/
def OPTIONAL_SIZE_matches (cs : List Char) : Bool := cs.all Char.isDigit

/-- `SIZE_RE = ^[0-9]+$`. -/
def SIZE_matches (cs : List Char) : Bool := !cs.isEmpty && cs.all Char.isDigit

/-- `TWO_SIZE_RE = ^[0-9]+x[0-9]+$`. -/
def TWO_SIZE_matches (cs : List Char) : Bool :=
  let d1 := cs.takeWhile Char.isDigit
  match cs.dropWhile Char.isDigit with
  | 'x' :: r => !d1.isEmpty && !r.isEmpty && r.all Char.isDigit
  | _ => false

/-- `ast.literal_eval` applied to one `[...]` group: `[]` gives the empty
list, `[digits]` the one-element list of its decimal value. -/
def literal_eval_arr (g : List Char) : List Nat :=
  let inner := (g.drop 1).dropLast
  if inner.isEmpty then [] else [digitsVal inner]

/-- The `elif` chain of validity checks in `process_strict_type`, with the
source's error messages. -/
def validate_base_sub (base sub : List Char) : Except String Unit :=
  if base = "string".toList || base = "bytes".toList then
    if !OPTIONAL_SIZE_matches sub then
      .error "String type must have no suffix or numerical suffix"
    else if !sub.isEmpty && digitsVal sub > 32 then
      .error "Maximum 32 bytes for fixed-length str or bytes"
    else .ok ()
  else if base = "uint".toList || base = "int".toList then
    if !SIZE_matches sub then .error "Integer type must have numerical suffix"
    else if 8 > digitsVal sub || digitsVal sub > 256 then .error "Integer size out of bounds"
    else if digitsVal sub % 8 ≠ 0 then .error "Integer size must be multiple of 8"
    else .ok ()
  else if base = "ufixed".toList || base = "fixed".toList then
    if !TWO_SIZE_matches sub then
      .error "Fixed type must have suffix of form highxlow, eg. 128x128"
    else
      let bits := digitsVal (sub.takeWhile Char.isDigit)
      let minus_e := digitsVal ((sub.dropWhile Char.isDigit).drop 1)
      if bits % 8 ≠ 0 then .error "Fixed size must be multiple of 8"
      else if bits < 8 || bits > 256 then .error "Fixed size out of bounds (max 256 bits)"
      else if minus_e < 1 || minus_e > 80 then .error "Fixed size exponent is out of bounds"
      else .ok ()
  else if base = "ureal".toList || base = "real".toList then
    if !TWO_SIZE_matches sub then
      .error "Real type must have suffix of form highxlow, eg. 128x128"
    else
      let high := digitsVal (sub.takeWhile Char.isDigit)
      let low := digitsVal ((sub.dropWhile Char.isDigit).drop 1)
      if 8 > high + low || high + low > 256 then .error "Real size out of bounds (max 32 bytes)"
      else if high % 8 ≠ 0 || low % 8 ≠ 0 then .error "Real high/low sizes must be multiples of 8"
      else .ok ()
  else if base = "hash".toList then
    if !SIZE_matches sub then .error "Hash type must have numerical suffix"
    else .ok ()
  else if base = "address".toList then
    if !sub.isEmpty then .error "Address cannot have suffix"
    else .ok ()
  else .ok ()

/-- `process_strict_type` from `src/eth_abi/utils/parsing.py`. -/
def process_strict_type (typ : List Char) :
    Except String (List Char × List Char × List (List Nat)) := do
  let (base, sub, arr) := type_components typ
  let arrlist := arr_findall arr
  if (arrlist.flatten).length ≠ arr.length then
    throw "Unknown characters found in array declaration"
  let _ ← validate_base_sub base sub
  .ok (base, sub, arrlist.map literal_eval_arr)

/-- `DEFAULT_LENGTHS`. -/
def DEFAULT_LENGTHS : List (List Char × List Char) :=
  [("int".toList, "256".toList), ("uint".toList, "256".toList),
   ("fixed".toList, "128x19".toList), ("ufixed".toList, "128x19".toList)]

/-- `find_matching_default`: the first default whose base is a prefix of the
raw type, if any. -/
def find_matching_default (raw_type : List Char) : Option (List Char × List Char) :=
  DEFAULT_LENGTHS.find? (fun p => p.1.isPrefixOf raw_type)

/-- `is_missing_length`. -/
def is_missing_length (raw_type : List Char) : Bool :=
  match find_matching_default raw_type with
  | some (default_base, _) =>
    match raw_type.drop default_base.length with
    | [] => true
    | c :: _ => !c.isDigit
  | none => false

/-- `type_with_default_length`. -/
def type_with_default_length (raw_type : List Char) : Except String (List Char) :=
  match find_matching_default raw_type with
  | some (default_base, default_length) =>
    .ok (default_base ++ default_length ++ raw_type.drop default_base.length)
  | none => .error "Type has no default length"

/-- `normalize_type` from `src/eth_abi/utils/parsing.py`. -/
def normalize_type (raw_type : List Char) : Except String (List Char) :=
  if raw_type = "function".toList then .ok "bytes24".toList
  else if is_missing_length raw_type then type_with_default_length raw_type
  else .ok raw_type

/-- `process_type`: normalization followed by strict processing. -/
def process_type (raw_type : List Char) :
    Except String (List Char × List Char × List (List Nat)) := do
  let typ ← normalize_type raw_type
  process_strict_type typ

/-- Modelled from the spec (for comparison with the code): the derived
predicate `is_dynamic(t)` of spec section 3, expressed on a processed
`(base, sub, arrlist)` triple: dynamic `bytes`/`string`, any dynamic array
level, or an array (of any length) whose element type is dynamic. -/
def spec_is_dynamic (base sub : List Char) (arrlist : List (List Nat)) : Bool :=
  (base == "bytes".toList && sub.isEmpty) || base == "string".toList
    || arrlist.any (fun lvl => lvl.isEmpty)

/-- The predicate the code actually wraps on: only the outermost layer of
the type decides — a top-level dynamic array, or (with no array levels at
all) dynamic `bytes`/`string`. -/
def top_level_dynamic (base sub : List Char) (arrlist : List (List Nat)) : Bool :=
  match arrlist.getLast? with
  | some lvl => lvl.isEmpty
  | none => base == "string".toList || (base == "bytes".toList && sub.isEmpty)

/-- 32 bytes of `0xFF`: the canonical sign-extended encoding of `int8 -1`. -/
def c1Data : List Byte := List.replicate 32 255

/-- A buffer for exercising `HeadTailDecoder` entered at cursor 32: the
offset word at [32,64) holds 64; a length-1 byte string body sits at
absolute 64, and a length-2 byte string body sits at absolute 96 = 32+64. -/
def c2Data : List Byte :=
  List.replicate 32 0 ++ beWord 32 64 ++ beWord 32 1 ++ beWord 32 2
    ++ ([98, 99] ++ List.replicate 30 0)

/-- Two in-place byte-string encodings back to back (what the code reads
for `bytes[2]`). -/
def c3Data : List Byte :=
  beWord 32 1 ++ ([97] ++ List.replicate 31 0)
    ++ (beWord 32 1 ++ ([98] ++ List.replicate 31 0))

/-- A valid encoding of the byte string `b"a"`. -/
def c4ValidData : List Byte := beWord 32 1 ++ ([97] ++ List.replicate 31 0)

/-- The same encoding with the lowest bit of the last padding byte flipped. -/
def c4FlippedData : List Byte := beWord 32 1 ++ ([97] ++ List.replicate 30 0 ++ [1])

/-- A 32-byte address word: 12 zero padding bytes, then 20 address bytes. -/
def c6Word : List Byte := List.replicate 12 0 ++ (171 :: 205 :: List.replicate 18 0)

/-- A valid `uint8` word holding 5. -/
def c8Word : List Byte := List.replicate 31 0 ++ [5]

/-- An offset word (32) followed by the byte-string body it points at. -/
def c9Data : List Byte := beWord 32 32 ++ beWord 32 1 ++ ([99] ++ List.replicate 31 0)

/-! ## General lemmas about the embedded decoders -/

@[simp] theorem ebind_ok {ε α β : Type} (a : α) (f : α → Except ε β) :
    (Except.ok a >>= f) = f a := rfl

@[simp] theorem ebind_err {ε α β : Type} (e : ε) (f : α → Except ε β) :
    ((Except.error e : Except ε α) >>= f) = Except.error e := rfl

/-- Inverting a successful fixed-size read: it returned the 32-byte window
at the cursor and advanced the cursor by exactly the requested size. -/
theorem read_data_from_stream_ok {n : Nat} {s : Stream} {raw : List Byte} {s1 : Stream}
    (h : read_data_from_stream n s = .ok (raw, s1)) :
    raw = (s.data.drop s.pos).take n ∧ raw.length = n
      ∧ s1 = { s with pos := s.pos + n } := by
  simp only [read_data_from_stream, Stream.read] at h
  split at h
  · exact absurd h (by simp)
  · rename_i hc
    rw [not_ne_iff] at hc
    cases h
    exact ⟨rfl, hc, by rw [hc]⟩

/-- A successful `uint` decode moves the cursor forward by one word. -/
theorem decode_uint_raw_ok {bits : Nat} {s : Stream} {v : Nat} {s1 : Stream}
    (h : decode_uint_raw bits s = .ok (v, s1)) :
    s1 = { s with pos := s.pos + 32 } := by
  unfold decode_uint_raw at h
  cases hr : read_data_from_stream 32 s with
  | error e => rw [hr] at h; simp at h
  | ok p =>
    obtain ⟨raw, s'⟩ := p
    rw [hr] at h
    simp only [ebind_ok] at h
    obtain ⟨-, -, hs⟩ := read_data_from_stream_ok hr
    cases hn : normalize_raw_data 32 (bits / 8) true raw with
    | error e => rw [hn] at h; simp at h
    | ok d =>
      rw [hn] at h
      simp only [ebind_ok, Except.ok.injEq, Prod.mk.injEq] at h
      rw [← h.2, hs]

/-- A successful fixed-size decode moves the cursor forward by one word. -/
theorem fixed32_decode_ok {bits : Nat} {bigE : Bool} {fn : List Byte → Except Err Value}
    {s : Stream} {v : Value} {s1 : Stream}
    (h : fixed32_decode bits bigE fn s = .ok (v, s1)) :
    s1 = { s with pos := s.pos + 32 } := by
  unfold fixed32_decode at h
  cases hr : read_data_from_stream 32 s with
  | error e => rw [hr] at h; simp at h
  | ok p =>
    obtain ⟨raw, s'⟩ := p
    rw [hr] at h
    simp only [ebind_ok] at h
    obtain ⟨-, -, hs⟩ := read_data_from_stream_ok hr
    cases hn : normalize_raw_data 32 (bits / 8) bigE raw with
    | error e => rw [hn] at h; simp at h
    | ok d =>
      rw [hn] at h
      simp only [ebind_ok] at h
      cases hf : fn d with
      | error e => rw [hf] at h; simp at h
      | ok w =>
        rw [hf] at h
        simp only [ebind_ok, Except.ok.injEq, Prod.mk.injEq] at h
        rw [← h.2, hs]

/-- Iterated decoding preserves the stream contents whenever the iterated
function does. -/
theorem decodeTimes_data {f : Stream → Except Err (Value × Stream)}
    (hf : ∀ s v s', f s = .ok (v, s') → s'.data = s.data) :
    ∀ (n : Nat) (s : Stream) (vs : List Value) (s' : Stream),
      decodeTimes f n s = .ok (vs, s') → s'.data = s.data := by
  intro n
  induction n with
  | zero =>
    intro s vs s' h
    simp only [decodeTimes, Except.ok.injEq, Prod.mk.injEq] at h
    rw [← h.2]
  | succ m ih =>
    intro s vs s' h
    simp only [decodeTimes] at h
    cases h1 : f s with
    | error e => rw [h1] at h; simp at h
    | ok p =>
      obtain ⟨v1, t1⟩ := p
      rw [h1] at h
      simp only [ebind_ok] at h
      cases h2 : decodeTimes f m t1 with
      | error e => rw [h2] at h; simp at h
      | ok q =>
        obtain ⟨vs2, t2⟩ := q
        rw [h2] at h
        simp only [ebind_ok, Except.ok.injEq, Prod.mk.injEq] at h
        rw [← h.2]
        rw [ih t1 vs2 t2 h2, hf s v1 t1 h1]

/-- No decoder ever changes the bytes of the stream, only the cursor. -/
theorem decode_data_pres :
    ∀ (d : Decoder) (s : Stream) (v : Value) (s' : Stream),
      d.decode s = .ok (v, s') → s'.data = s.data := by
  intro d
  induction d with
  | UIntDecoder bits =>
    intro s v s' h
    simp only [Decoder.decode] at h
    cases hr : decode_uint_raw bits s with
    | error e => rw [hr] at h; simp at h
    | ok p =>
      obtain ⟨n, s1⟩ := p
      rw [hr] at h
      simp only [Except.ok.injEq, Prod.mk.injEq] at h
      rw [← h.2, decode_uint_raw_ok hr]
  | IntDecoder bits =>
    intro s v s' h
    rw [fixed32_decode_ok h]
  | BooleanDecoder =>
    intro s v s' h
    rw [fixed32_decode_ok h]
  | AddressDecoder =>
    intro s v s' h
    rw [fixed32_decode_ok h]
  | BytesDecoder bits =>
    intro s v s' h
    rw [fixed32_decode_ok h]
  | StringDecoder =>
    intro s v s' h
    simp only [Decoder.decode, decode_uint_256] at h
    cases hr : decode_uint_raw 256 s with
    | error e => rw [hr] at h; simp at h
    | ok p =>
      obtain ⟨n, s1⟩ := p
      rw [hr] at h
      simp only [ebind_ok, Stream.read] at h
      split at h
      · simp at h
      · simp only [Except.ok.injEq, Prod.mk.injEq] at h
        rw [← h.2]
        rw [decode_uint_raw_ok hr]
  | SizedArrayDecoder k sub ih =>
    intro s v s' h
    simp only [Decoder.decode] at h
    cases ht : decodeTimes sub.decode k s with
    | error e => rw [ht] at h; simp at h
    | ok q =>
      obtain ⟨vs, t⟩ := q
      rw [ht] at h
      simp only [Except.ok.injEq, Prod.mk.injEq] at h
      rw [← h.2]
      exact decodeTimes_data ih k s vs t ht
  | DynamicArrayDecoder sub ih =>
    intro s v s' h
    simp only [Decoder.decode, decode_uint_256] at h
    cases hr : decode_uint_raw 256 s with
    | error e => rw [hr] at h; simp at h
    | ok p =>
      obtain ⟨n, s1⟩ := p
      rw [hr] at h
      simp only [ebind_ok] at h
      cases ht : decodeTimes sub.decode n s1 with
      | error e => rw [ht] at h; simp at h
      | ok q =>
        obtain ⟨vs, t⟩ := q
        rw [ht] at h
        simp only [Except.ok.injEq, Prod.mk.injEq] at h
        rw [← h.2]
        rw [decodeTimes_data ih n s1 vs t ht, decode_uint_raw_ok hr]

/-- `HeadTailDecoder.decode` preserves the stream bytes and lands the
cursor exactly one word beyond where it started (the anchor). -/
theorem head_tail_frame (sub : Decoder) (s : Stream) (v : Value) (s' : Stream)
    (h : head_tail_decode sub s = .ok (v, s')) :
    s'.data = s.data ∧ s'.pos = s.pos + 32 := by
  unfold head_tail_decode at h
  cases hr : decode_uint_256 s with
  | error e => rw [hr] at h; simp at h
  | ok p =>
    obtain ⟨o, s1⟩ := p
    rw [hr] at h
    simp only [ebind_ok] at h
    cases hd : sub.decode (s1.seek o) with
    | error e => rw [hd] at h; simp at h
    | ok q =>
      obtain ⟨w, s3⟩ := q
      rw [hd] at h
      simp only [ebind_ok, Except.ok.injEq, Prod.mk.injEq] at h
      have hs1 := decode_uint_raw_ok hr
      have h3 : s3.data = (s1.seek o).data := decode_data_pres sub (s1.seek o) w s3 hd
      rw [← h.2]
      constructor
      · rw [show (s3.seek s1.tell).data = s3.data from rfl, h3, hs1]
        rfl
      · rw [show (s3.seek s1.tell).pos = s1.pos from rfl, hs1]

/-- `MultiDecoder.decode` preserves the stream bytes. -/
theorem multi_decode_data :
    ∀ (ds : List Decoder) (s : Stream) (vs : List Value) (s' : Stream),
      multi_decode ds s = .ok (vs, s') → s'.data = s.data := by
  intro ds
  induction ds with
  | nil =>
    intro s vs s' h
    simp only [multi_decode, Except.ok.injEq, Prod.mk.injEq] at h
    rw [← h.2]
  | cons d rest ih =>
    intro s vs s' h
    simp only [multi_decode] at h
    by_cases hw : d.isWrappedDynamic = true
    · rw [if_pos hw] at h
      cases h1 : head_tail_decode d s with
      | error e => rw [h1] at h; simp at h
      | ok p =>
        obtain ⟨v1, t1⟩ := p
        rw [h1] at h
        simp only [ebind_ok] at h
        cases h2 : multi_decode rest t1 with
        | error e => rw [h2] at h; simp at h
        | ok q =>
          obtain ⟨vs2, t2⟩ := q
          rw [h2] at h
          simp only [ebind_ok, Except.ok.injEq, Prod.mk.injEq] at h
          rw [← h.2, ih t1 vs2 t2 h2, (head_tail_frame d s v1 t1 h1).1]
    · rw [if_neg hw] at h
      cases h1 : d.decode s with
      | error e => rw [h1] at h; simp at h
      | ok p =>
        obtain ⟨v1, t1⟩ := p
        rw [h1] at h
        simp only [ebind_ok] at h
        cases h2 : multi_decode rest t1 with
        | error e => rw [h2] at h; simp at h
        | ok q =>
          obtain ⟨vs2, t2⟩ := q
          rw [h2] at h
          simp only [ebind_ok, Except.ok.injEq, Prod.mk.injEq] at h
          rw [← h.2, ih t1 vs2 t2 h2, decode_data_pres d s v1 t1 h1]

theorem ne_function_second (c d : Char) (cs : List Char) (hd : d ≠ 'u') :
    c :: d :: cs ≠ "function".toList := fun h =>
  hd (Option.some.inj (show some d = some 'u' from congrArg (fun l => l.tail.head?) h))

theorem normalize_default_helper (pre add rest : List Char)
    (hne : (pre ++ rest) ≠ "function".toList)
    (hm : is_missing_length (pre ++ rest) = true)
    (hd : type_with_default_length (pre ++ rest) = .ok add) :
    normalize_type (pre ++ rest) = .ok add := by
  unfold normalize_type
  rw [if_neg hne, if_pos hm, hd]

theorem length_beWord (k n : Nat) : (beWord k n).length = k := by
  induction k generalizing n with
  | zero => rfl
  | succ m ih => simp [beWord, ih]

theorem bei_beWord (k n : Nat) (h : n < 256 ^ k) :
    big_endian_to_int (beWord k n) = n := by
  induction k generalizing n with
  | zero =>
    simp only [Nat.pow_zero, Nat.lt_one_iff] at h
    simp [beWord, big_endian_to_int, h]
  | succ m ih =>
    have hdiv : n / 256 < 256 ^ m := by
      rw [Nat.div_lt_iff_lt_mul (by norm_num)]
      calc n < 256 ^ (m + 1) := h
        _ = 256 ^ m * 256 := by rw [Nat.pow_succ]
    unfold beWord big_endian_to_int
    rw [List.foldl_append]
    show big_endian_to_int (beWord m (n / 256)) * 256 + n % 256 = n
    rw [ih (n / 256) hdiv]
    omega

theorem le_ceil32 (n : Nat) : n ≤ ceil32 n := by
  unfold ceil32; split <;> omega

theorem fixed32_padding_reject (bits : Nat) (bigE : Bool)
    (fn : List Byte → Except Err Value) (s : Stream) (raw : List Byte) (s1 : Stream)
    (hr : read_data_from_stream 32 s = .ok (raw, s1))
    (hpad : (if bigE then raw.take (32 - bits / 8) else raw.drop (bits / 8))
      ≠ List.replicate (32 - bits / 8) 0) :
    fixed32_decode bits bigE fn s = .error .nonEmptyPadding := by
  unfold fixed32_decode
  rw [hr]
  simp only [ebind_ok]
  unfold normalize_raw_data
  cases bigE <;> simp_all

theorem uint_padding_reject (bits : Nat) (s : Stream) (raw : List Byte) (s1 : Stream)
    (hr : read_data_from_stream 32 s = .ok (raw, s1))
    (hpad : raw.take (32 - bits / 8) ≠ List.replicate (32 - bits / 8) 0) :
    Decoder.decode (.UIntDecoder bits) s = .error .nonEmptyPadding := by
  have hraw : decode_uint_raw bits s = .error .nonEmptyPadding := by
    unfold decode_uint_raw
    rw [hr]
    simp only [ebind_ok]
    unfold normalize_raw_data
    simp_all
  simp only [Decoder.decode]
  rw [hraw]

theorem string_ignores_padding (n : Nat) (body : List Byte)
    (hn : n < 2 ^ 256) (hb : ceil32 n ≤ body.length) :
    Decoder.decode .StringDecoder ⟨beWord 32 n ++ body, 0⟩ =
      .ok (.bytes (body.take n), ⟨beWord 32 n ++ body, 32 + ceil32 n⟩) := by
  have h256 : n < 256 ^ 32 := by
    have he : (256 : Nat) ^ 32 = 2 ^ 256 := by norm_num
    rw [he]; exact hn
  have hlenw : (beWord 32 n).length = 32 := length_beWord 32 n
  have hchunk : ((Stream.mk (beWord 32 n ++ body) 0).data.drop
      (Stream.mk (beWord 32 n ++ body) 0).pos).take 32 = beWord 32 n := by
    rw [show (Stream.mk (beWord 32 n ++ body) 0).data = beWord 32 n ++ body from rfl,
      show (Stream.mk (beWord 32 n ++ body) 0).pos = 0 from rfl,
      List.drop_zero, List.take_left' hlenw]
  have hread : read_data_from_stream 32 ⟨beWord 32 n ++ body, 0⟩ =
      .ok (beWord 32 n, ⟨beWord 32 n ++ body, 32⟩) := by
    unfold read_data_from_stream Stream.read
    simp only [hchunk, hlenw]
    simp
  have hnorm : normalize_raw_data 32 (256 / 8) true (beWord 32 n) = .ok (beWord 32 n) := by
    unfold normalize_raw_data
    simp
  have huint : decode_uint_256 ⟨beWord 32 n ++ body, 0⟩ =
      .ok (n, ⟨beWord 32 n ++ body, 32⟩) := by
    unfold decode_uint_256 decode_uint_raw
    rw [hread]
    simp only [ebind_ok]
    rw [hnorm]
    simp only [ebind_ok]
    rw [bei_beWord 32 n h256]
  have hlen2 : (((Stream.mk (beWord 32 n ++ body) 32).data.drop
      (Stream.mk (beWord 32 n ++ body) 32).pos).take (ceil32 n)) = body.take (ceil32 n) := by
    rw [show (Stream.mk (beWord 32 n ++ body) 32).data = beWord 32 n ++ body from rfl,
      show (Stream.mk (beWord 32 n ++ body) 32).pos = 32 from rfl,
      List.drop_left' hlenw]
  have htlen : (body.take (ceil32 n)).length = ceil32 n := by
    rw [List.length_take]
    omega
  simp only [Decoder.decode]
  rw [huint]
  simp only [ebind_ok, Stream.read, hlen2, htlen]
  rw [if_neg (by omega)]
  rw [List.take_take, Nat.min_eq_left (le_ceil32 n)]

theorem digit_not_lower {c : Char} (h : c.isDigit = true) : isLowerAlpha c = false := by
  simp [Char.isDigit] at h
  obtain ⟨h1, h2⟩ := h
  simp only [isLowerAlpha, Bool.and_eq_false_iff]
  left
  simp only [decide_eq_false_iff_not, Char.le_def]
  intro hle
  have ha : (97 : Nat) ≤ c.val.toNat := hle
  have hb : c.val.toNat ≤ 57 := h2
  omega

theorem type_components_lower_digits (b ds : List Char)
    (hb : ∀ c ∈ b, isLowerAlpha c = true)
    (hds : ds.all Char.isDigit = true) :
    type_components (b ++ ds) = (b, ds, []) := by
  have hds' : ∀ c ∈ ds, c.isDigit = true := List.all_eq_true.mp hds
  have htb : b.takeWhile isLowerAlpha = b := List.takeWhile_eq_self_iff.mpr hb
  have htd : ds.takeWhile isLowerAlpha = [] := by
    cases ds with
    | nil => rfl
    | cons c cs =>
      rw [List.takeWhile_cons, if_neg]
      simp [digit_not_lower (hds' c (by simp))]
  have hdd : ds.dropWhile isLowerAlpha = ds := by
    cases ds with
    | nil => rfl
    | cons c cs =>
      rw [List.dropWhile_cons, if_neg]
      simp [digit_not_lower (hds' c (by simp))]
  have h1 : (b ++ ds).takeWhile isLowerAlpha = b := by
    rw [List.takeWhile_append, if_pos (by rw [htb]), htd, List.append_nil]
  have h2 : (b ++ ds).dropWhile isLowerAlpha = ds := by
    rw [List.dropWhile_append]
    have : (b.dropWhile isLowerAlpha).isEmpty = true := by
      have : b.dropWhile isLowerAlpha = [] := by
        have := @List.takeWhile_append_dropWhile _ isLowerAlpha b
        rw [htb] at this
        simpa using this.symm
      rw [this]; rfl
    rw [if_pos this, hdd]
  have h3 : takeSize ds = (ds, []) := by
    unfold takeSize
    rw [List.takeWhile_eq_self_iff.mpr hds', List.dropWhile_eq_nil_iff.mpr (by intro x hx; exact hds' x hx)]
  unfold type_components
  rw [h1, h2]
  simp only [h3]
  rfl

theorem process_strict_bytes_string (b ds : List Char)
    (hb : ∀ c ∈ b, isLowerAlpha c = true)
    (hbs : (decide (b = "string".toList) || decide (b = "bytes".toList)) = true)
    (hds : ds.all Char.isDigit = true) :
    process_strict_type (b ++ ds) =
      if !ds.isEmpty && digitsVal ds > 32
      then .error "Maximum 32 bytes for fixed-length str or bytes"
      else .ok (b, ds, []) := by
  have hc := type_components_lower_digits b ds hb hds
  unfold process_strict_type
  rw [hc]
  simp only []
  rw [if_neg (by decide : ¬ (arr_findall []).flatten.length ≠ ([] : List Char).length)]
  simp only [pure, Except.pure, ebind_ok]
  unfold validate_base_sub
  rw [if_pos hbs]
  rw [if_neg (by simp [OPTIONAL_SIZE_matches, hds] : ¬ (!OPTIONAL_SIZE_matches ds) = true)]
  by_cases hcond : (!ds.isEmpty && decide (digitsVal ds > 32)) = true
  · rw [if_pos hcond, if_pos hcond]
    simp
  · rw [if_neg hcond, if_neg hcond]
    simp
    rfl

theorem be_foldl_lt (xs : List Nat) (hx : ∀ b ∈ xs, b < 256) :
    ∀ acc, xs.foldl (fun a b => a * 256 + b) acc < (acc + 1) * 256 ^ xs.length := by
  induction xs with
  | nil => intro acc; simp
  | cons b bs ih =>
    intro acc
    simp only [List.foldl_cons, List.length_cons]
    have h1 := ih (fun x hx' => hx x (by simp [hx'])) (acc * 256 + b)
    have hb : b + 1 ≤ 256 := hx b (by simp)
    calc bs.foldl (fun a b => a * 256 + b) (acc * 256 + b)
        < (acc * 256 + b + 1) * 256 ^ bs.length := h1
      _ ≤ ((acc + 1) * 256) * 256 ^ bs.length :=
          Nat.mul_le_mul_right _ (by omega)
      _ = (acc + 1) * 256 ^ (bs.length + 1) := by ring

theorem big_endian_lt (xs : List Nat) (hx : ∀ b ∈ xs, b < 256) :
    big_endian_to_int xs < 256 ^ xs.length := by
  have := be_foldl_lt xs hx 0
  simpa [big_endian_to_int] using this

/-! ## Settling the claims -/

/-- Claim C1 (code bug): the specification requires sign-extension padding
for negative signed integers (high bytes `0xFF`), and the repository's own
test `test_decode_signed_int` expects exactly that; but `IntDecoder`
inherits the all-zeros padding check of `normalize_raw_data`, so the
canonical encoding of `int8 -1` (32 bytes of `0xFF`) is rejected with
`NonEmptyPadding` instead of decoding to `-1`. -/
theorem c1_int_decoder_rejects_sign_extended_padding :
    Decoder.decode (.IntDecoder 8) ⟨c1Data, 0⟩ = .error .nonEmptyPadding := rfl

/-- Claim C2 counterexample: entering a head-tail decode at local base
`B = 32` with offset word `o = 64`, the member body is decoded from
absolute position `64 = o` (the length-1 byte string there), not from
`B + o = 96` (where a length-2 byte string lies), so the claim's
`B + o` rule is false of the code. -/
theorem c2_offsets_are_absolute_counterexample :
    head_tail_decode .StringDecoder ⟨c2Data, 32⟩ = .ok (.bytes [0], ⟨c2Data, 64⟩)
    ∧ Decoder.decode .StringDecoder ⟨c2Data, 96⟩ = .ok (.bytes [98, 99], ⟨c2Data, 160⟩)
    ∧ Value.bytes ([0] : List Byte) ≠ .bytes [98, 99] :=
  ⟨rfl, rfl, fun h => by injection h with h1; exact absurd h1 (by decide)⟩


/-- Claim C2 (amended): a dynamic member is decoded by reading a `uint256`
offset `o` and seeking to the absolute stream position `o` — measured from
the start of the whole buffer, not from the tuple's local base (the two
agree only when the base is 0) — after which the cursor is restored to the
anchor just past the offset word (entry position plus 32). -/
theorem c2_head_tail_absolute_offset (sub : Decoder) (s : Stream) (o : Nat) (s1 : Stream)
    (v : Value) (s2 : Stream)
    (h1 : decode_uint_256 s = .ok (o, s1))
    (h2 : sub.decode (s1.seek o) = .ok (v, s2)) :
    head_tail_decode sub s = .ok (v, s2.seek s1.pos) ∧ s1.pos = s.pos + 32 := by
  constructor
  · unfold head_tail_decode
    rw [h1]
    simp only [ebind_ok, Stream.tell]
    rw [h2]
    simp only [ebind_ok]
  · rw [decode_uint_raw_ok h1]


/-- Claim C2 witness: the amended theorem applied to the concrete buffer. -/
theorem c2_head_tail_witness :
    head_tail_decode .StringDecoder ⟨c2Data, 32⟩ =
      .ok (.bytes [0], Stream.seek ⟨c2Data, 128⟩ (Stream.mk c2Data 64).pos)
    ∧ (Stream.mk c2Data 64).pos = (Stream.mk c2Data 32).pos + 32 :=
  c2_head_tail_absolute_offset .StringDecoder ⟨c2Data, 32⟩ 64 ⟨c2Data, 64⟩
    (.bytes [0]) ⟨c2Data, 128⟩ rfl rfl

/-- Claim C3 counterexample: `bytes[2]` is dynamic under the spec's
`is_dynamic` (a fixed-size array of a dynamic element type), yet the code
builds a `SizedArrayDecoder`, which `MultiDecoder` never wraps in a
`HeadTailDecoder`: the member is decoded in place, not through an offset. -/
theorem c3_fixed_array_of_dynamic_counterexample :
    spec_is_dynamic "bytes".toList [] [[2]] = true
    ∧ get_decoder_for_type "bytes".toList [] [[2]] = .ok (.SizedArrayDecoder 2 .StringDecoder)
    ∧ (Decoder.SizedArrayDecoder 2 .StringDecoder).isWrappedDynamic = false
    ∧ multi_decode [.SizedArrayDecoder 2 .StringDecoder] ⟨c3Data, 0⟩ =
        .ok ([.tuple [.bytes [97], .bytes [98]]], ⟨c3Data, 128⟩) :=
  ⟨rfl, rfl, rfl, rfl⟩


/-- Claim C3 (amended): a tuple member is decoded through a 32-byte head
offset iff its decoder is a `DynamicArrayDecoder` or `StringDecoder`, i.e.
iff the outermost layer of its type is dynamic (dynamic `bytes`, `string`,
or an unsized top-level array).  Fixed-size arrays are decoded in place
even when their element type is dynamic; tuples do not exist in this
grammar. -/
theorem c3_wrapped_iff_top_level_dynamic (base sub : List Char) (arrlist : List (List Nat)) (d : Decoder)
    (h : get_decoder_for_type base sub arrlist = .ok d) :
    d.isWrappedDynamic = top_level_dynamic base sub arrlist := by
  cases arrlist with
  | nil =>
    simp only [get_decoder_for_type, get_decoder_aux] at h
    show d.isWrappedDynamic = (base == "string".toList || (base == "bytes".toList && sub.isEmpty))
    split_ifs at h with ha hb hc hd he hf hg
    · cases h; subst ha; rfl
    · cases h; subst hb; rfl
    · split at h
      · cases h; subst hc
        simp only [Bool.not_eq_true'] at hd
        simp [hd, Decoder.isWrappedDynamic]
      · simp at h
    · cases h; subst hc
      simp only [Bool.not_eq_true', Bool.not_eq_false] at hd
      simp [hd, Decoder.isWrappedDynamic]
    · split at h
      · cases h; subst he; rfl
      · simp at h
    · cases h; subst hf; rfl
    · split at h
      · cases h; subst hg; rfl
      · simp at h
  | cons a as =>
    simp only [get_decoder_for_type] at h
    rw [show (a :: as).length = as.length + 1 from rfl] at h
    simp only [get_decoder_aux] at h
    cases hrec : get_decoder_aux as.length base sub ((a :: as).dropLast) with
    | error e => rw [hrec] at h; simp at h
    | ok sub_d =>
      rw [hrec] at h
      simp only [ebind_ok] at h
      unfold top_level_dynamic
      cases hlast : (a :: as).getLast? with
      | none => exact absurd hlast (by simp)
      | some lvl =>
        rw [hlast] at h
        cases lvl with
        | nil => cases h; rfl
        | cons k ks => cases h; rfl


/-- Claim C3 witness: the amended theorem applied to the `bytes[2]`
decoder. -/
theorem c3_wrapped_witness :
    (Decoder.SizedArrayDecoder 2 .StringDecoder).isWrappedDynamic =
      top_level_dynamic "bytes".toList [] [[2]] :=
  c3_wrapped_iff_top_level_dynamic "bytes".toList [] [[2]]
    (.SizedArrayDecoder 2 .StringDecoder) rfl

/-- Claim C4 counterexample: flipping a padding bit of a valid encoding of
the byte string `b"a"` (last padding byte becomes 1) does NOT make decode
fail with `NonEmptyPadding` — the string decoder never inspects its
padding and still returns `b"a"`. -/
theorem c4_string_padding_flip_counterexample :
    Decoder.decode .StringDecoder ⟨c4ValidData, 0⟩ = .ok (.bytes [97], ⟨c4ValidData, 64⟩)
    ∧ Decoder.decode .StringDecoder ⟨c4FlippedData, 0⟩ = .ok (.bytes [97], ⟨c4FlippedData, 64⟩)
    ∧ c4FlippedData ≠ c4ValidData :=
  ⟨rfl, rfl, by decide⟩

/-- Claim C4 (amended): for the fixed-width 32-byte codecs (uint, int,
bool, address, bytesN) any nonzero padding byte — in particular any
flipped padding bit of a valid encoding — makes decode fail with
`NonEmptyPadding`; but for dynamic Bytes/String the padding is never
examined: decode reads the length word, returns the first `length` bytes
of the `ceil32(length)` payload, and succeeds whatever the padding bytes
hold. -/
theorem c4_padding_checked_only_for_fixed_width :
    (∀ (bits : Nat) (bigE : Bool) (fn : List Byte → Except Err Value) (s : Stream)
        (raw : List Byte) (s1 : Stream),
        read_data_from_stream 32 s = .ok (raw, s1) →
        (if bigE then raw.take (32 - bits / 8) else raw.drop (bits / 8))
          ≠ List.replicate (32 - bits / 8) 0 →
        fixed32_decode bits bigE fn s = .error .nonEmptyPadding)
    ∧ (∀ (bits : Nat) (s : Stream) (raw : List Byte) (s1 : Stream),
        read_data_from_stream 32 s = .ok (raw, s1) →
        raw.take (32 - bits / 8) ≠ List.replicate (32 - bits / 8) 0 →
        Decoder.decode (.UIntDecoder bits) s = .error .nonEmptyPadding)
    ∧ (∀ (n : Nat) (body : List Byte), n < 2 ^ 256 → ceil32 n ≤ body.length →
        Decoder.decode .StringDecoder ⟨beWord 32 n ++ body, 0⟩ =
          .ok (.bytes (body.take n), ⟨beWord 32 n ++ body, 32 + ceil32 n⟩)) :=
  ⟨fixed32_padding_reject, uint_padding_reject, string_ignores_padding⟩

/-- Claim C4 witness: the amended theorem applied to a nonzero-padding
word and to a byte-string body with arbitrary (here zero) padding. -/
theorem c4_padding_witness :
    fixed32_decode 8 true bytes_decoder_fn ⟨c1Data, 0⟩ = .error .nonEmptyPadding
    ∧ Decoder.decode .StringDecoder ⟨beWord 32 1 ++ ([97] ++ List.replicate 31 0), 0⟩ =
        .ok (.bytes (([97] ++ List.replicate 31 0).take 1),
          ⟨beWord 32 1 ++ ([97] ++ List.replicate 31 0), 32 + ceil32 1⟩) :=
  ⟨c4_padding_checked_only_for_fixed_width.1 8 true bytes_decoder_fn ⟨c1Data, 0⟩
      c1Data ⟨c1Data, 32⟩ rfl (by decide),
   c4_padding_checked_only_for_fixed_width.2.2 1 ([97] ++ List.replicate 31 0)
      (by decide) (by decide)⟩

/-- Claim C5 counterexample: the normalization default for `fixed` is
`128x19` in the code (`DEFAULT_LENGTHS`), not the `128x18` stated by the
claim. -/
theorem c5_fixed_default_counterexample :
    normalize_type "fixed".toList = .ok "fixed128x19".toList
    ∧ "fixed128x19".toList ≠ "fixed128x18".toList :=
  ⟨rfl, by decide⟩


/-- Claim C5 (amended): normalization rewrites any type string beginning
with `int`, `uint`, `fixed` or `ufixed` whose next character is not a
digit by inserting the default length — `256` for int/uint and `128x19`
(not `128x18`) for fixed/ufixed — after that prefix; it rewrites the exact
string `function` to `bytes24`; every other type string passes through
unchanged. -/
theorem c5_normalization_characterized :
    (∀ rest : List Char, (rest.head?.all fun c => !c.isDigit) = true →
        normalize_type ("int".toList ++ rest) = .ok ("int256".toList ++ rest)
        ∧ normalize_type ("uint".toList ++ rest) = .ok ("uint256".toList ++ rest)
        ∧ normalize_type ("fixed".toList ++ rest) = .ok ("fixed128x19".toList ++ rest)
        ∧ normalize_type ("ufixed".toList ++ rest) = .ok ("ufixed128x19".toList ++ rest))
    ∧ normalize_type "function".toList = .ok "bytes24".toList
    ∧ (∀ s : List Char, s ≠ "function".toList → is_missing_length s = false →
        normalize_type s = .ok s) := by
  refine ⟨?_, rfl, ?_⟩
  · intro rest hdig
    refine ⟨?_, ?_, ?_, ?_⟩ <;>
      cases rest with
      | nil => rfl
      | cons c cs =>
        first
        | exact normalize_default_helper "int".toList ("int256".toList ++ (c :: cs)) (c :: cs)
            (ne_function_second 'i' 'n' _ (by decide)) hdig rfl
        | exact normalize_default_helper "uint".toList ("uint256".toList ++ (c :: cs)) (c :: cs)
            (ne_function_second 'u' 'i' _ (by decide)) hdig rfl
        | exact normalize_default_helper "fixed".toList ("fixed128x19".toList ++ (c :: cs)) (c :: cs)
            (ne_function_second 'f' 'i' _ (by decide)) hdig rfl
        | exact normalize_default_helper "ufixed".toList ("ufixed128x19".toList ++ (c :: cs)) (c :: cs)
            (ne_function_second 'u' 'f' _ (by decide)) hdig rfl
  · intro s h1 h2
    unfold normalize_type
    rw [if_neg h1, if_neg (by simp [h2])]


/-- Claim C5 witness: the amended theorem applied to the suffix `[2]` and
to a string with no matching prefix. -/
theorem c5_normalization_witness :
    normalize_type ("int".toList ++ "[2]".toList) = .ok ("int256".toList ++ "[2]".toList)
    ∧ normalize_type ("uint".toList ++ "[2]".toList) = .ok ("uint256".toList ++ "[2]".toList)
    ∧ normalize_type ("fixed".toList ++ "[2]".toList) = .ok ("fixed128x19".toList ++ "[2]".toList)
    ∧ normalize_type ("ufixed".toList ++ "[2]".toList) = .ok ("ufixed128x19".toList ++ "[2]".toList) :=
  c5_normalization_characterized.1 "[2]".toList (by decide)

/-- Claim C6 counterexample: decoding a well-padded address word yields a
`str` value (the `0x`-prefixed lowercase hex rendering produced by
`to_normalized_address`), which is not the 20-byte octet string the claim
asserts. -/
theorem c6_address_returns_hex_counterexample :
    Decoder.decode .AddressDecoder ⟨c6Word, 0⟩ =
      .ok (.str (to_normalized_address (c6Word.drop 12)), ⟨c6Word, 32⟩)
    ∧ Value.str (to_normalized_address (c6Word.drop 12)) ≠ .bytes (c6Word.drop 12) :=
  ⟨rfl, fun h => Value.noConfusion h⟩


/-- Claim C6 (amended): for every 32-byte word whose high 12 bytes are
zero, decoding at type Address succeeds, consumes exactly the word, and
yields the normalized lowercase hexadecimal string of the low 20 bytes
(as produced by `eth_utils.to_normalized_address`), not the raw octets. -/
theorem c6_address_decode_normalized_hex (data : List Byte) (hlen : data.length = 32)
    (hpad : data.take 12 = List.replicate 12 0) :
    Decoder.decode .AddressDecoder ⟨data, 0⟩ =
      .ok (.str (to_normalized_address (data.drop 12)), ⟨data, 32⟩) := by
  have hchunk : ((Stream.mk data 0).data.drop (Stream.mk data 0).pos).take 32 = data := by
    rw [show (Stream.mk data 0).data = data from rfl, show (Stream.mk data 0).pos = 0 from rfl,
      List.drop_zero]
    exact List.take_of_length_le (by omega)
  have hread : read_data_from_stream 32 ⟨data, 0⟩ = .ok (data, ⟨data, 32⟩) := by
    unfold read_data_from_stream Stream.read
    simp only [hchunk, hlen]
    simp
  have hnorm : normalize_raw_data 32 (160 / 8) true data = .ok (data.drop 12) := by
    unfold normalize_raw_data
    simp only [show (32 : Nat) - 160 / 8 = 12 from rfl, hpad]
    simp
  show fixed32_decode 160 true address_decoder_fn ⟨data, 0⟩ = _
  unfold fixed32_decode
  rw [hread]
  simp only [ebind_ok]
  rw [hnorm]
  simp only [ebind_ok, address_decoder_fn]


/-- Claim C6 witness: the amended theorem applied to a concrete word. -/
theorem c6_address_witness :
    Decoder.decode .AddressDecoder ⟨c6Word, 0⟩ =
      .ok (.str (to_normalized_address (c6Word.drop 12)), ⟨c6Word, 32⟩) :=
  c6_address_decode_normalized_hex c6Word (by decide) (by decide)

/-- Claim C7 counterexample: a sized `string` and a zero size on `bytes`
are both accepted by validation — `string32` parses to
`("string", "32", [])` and `bytes0` to `("bytes", "0", [])` — contrary to
the claim that sizes are only legal on `bytes` and must be at least 1. -/
theorem c7_sized_string_accepted_counterexample :
    process_strict_type "string32".toList = .ok ("string".toList, "32".toList, [])
    ∧ process_strict_type "bytes0".toList = .ok ("bytes".toList, "0".toList, []) :=
  ⟨rfl, rfl⟩


/-- Claim C7 (amended): for base `bytes` or `string` followed by an
optional digit string, validation treats both bases identically: the type
is accepted iff the size is absent or its value is at most 32 (so
`bytes0` and `string32` pass); only sizes above 32 — e.g. `bytes33` —
are rejected, with the classified error shown. -/
theorem c7_size_suffix_rule (ds : List Char) (hds : ds.all Char.isDigit = true) :
    (process_strict_type ("bytes".toList ++ ds) =
        if !ds.isEmpty && digitsVal ds > 32
        then .error "Maximum 32 bytes for fixed-length str or bytes"
        else .ok ("bytes".toList, ds, []))
    ∧ (process_strict_type ("string".toList ++ ds) =
        if !ds.isEmpty && digitsVal ds > 32
        then .error "Maximum 32 bytes for fixed-length str or bytes"
        else .ok ("string".toList, ds, [])) :=
  ⟨process_strict_bytes_string "bytes".toList ds (by decide) (by decide) hds,
   process_strict_bytes_string "string".toList ds (by decide) (by decide) hds⟩


/-- Claim C7 witness: the amended theorem applied to the size `32`. -/
theorem c7_size_rule_witness :
    (process_strict_type ("bytes".toList ++ "32".toList) =
        if !"32".toList.isEmpty && digitsVal "32".toList > 32
        then .error "Maximum 32 bytes for fixed-length str or bytes"
        else .ok ("bytes".toList, "32".toList, []))
    ∧ (process_strict_type ("string".toList ++ "32".toList) =
        if !"32".toList.isEmpty && digitsVal "32".toList > 32
        then .error "Maximum 32 bytes for fixed-length str or bytes"
        else .ok ("string".toList, "32".toList, [])) :=
  c7_size_suffix_rule "32".toList (by decide)


/-- Claim C8: decoding `uint(bits)` (8 ≤ bits ≤ 256, bits divisible by 8)
reads exactly 32 bytes — failing with `InsufficientData` when fewer are
available — fails with `NonEmptyPadding` unless the high `32 - bits/8`
bytes are all zero, and otherwise returns the big-endian value of the low
`bits/8` bytes, which is below `2 ^ bits`, with the cursor advanced by
exactly 32. -/
theorem c8_uint_decode_characterized (bits : Nat) (h8 : 8 ≤ bits) (h256 : bits ≤ 256) (hmod : bits % 8 = 0)
    (s : Stream) (hbytes : ∀ b ∈ s.data, b < 256) :
    (s.data.length - s.pos < 32 →
        Decoder.decode (.UIntDecoder bits) s = .error .insufficientData)
    ∧ (((s.data.drop s.pos).take 32).take (32 - bits / 8) ≠ List.replicate (32 - bits / 8) 0 →
        32 ≤ s.data.length - s.pos →
        Decoder.decode (.UIntDecoder bits) s = .error .nonEmptyPadding)
    ∧ (((s.data.drop s.pos).take 32).take (32 - bits / 8) = List.replicate (32 - bits / 8) 0 →
        32 ≤ s.data.length - s.pos →
        Decoder.decode (.UIntDecoder bits) s =
          .ok (.int (big_endian_to_int (((s.data.drop s.pos).take 32).drop (32 - bits / 8))),
            { s with pos := s.pos + 32 })
        ∧ big_endian_to_int (((s.data.drop s.pos).take 32).drop (32 - bits / 8)) < 2 ^ bits) := by
  have hca : ((s.data.drop s.pos).take 32).length = min 32 (s.data.length - s.pos) := by
    rw [List.length_take, List.length_drop]
  refine ⟨?_, ?_, ?_⟩
  · intro hlt
    have hne : ((s.data.drop s.pos).take 32).length ≠ 32 := by
      rw [hca]; omega
    have hr : read_data_from_stream 32 s = .error .insufficientData := by
      unfold read_data_from_stream Stream.read
      simp [hne]
      omega
    simp only [Decoder.decode]
    unfold decode_uint_raw
    rw [hr]
    simp
  · intro hpad h32
    have hclen : ((s.data.drop s.pos).take 32).length = 32 := by
      rw [hca]; omega
    have hr : read_data_from_stream 32 s =
        .ok ((s.data.drop s.pos).take 32, { s with pos := s.pos + 32 }) := by
      unfold read_data_from_stream Stream.read
      simp only [hclen]
      simp
    exact uint_padding_reject bits s _ _ hr hpad
  · intro hpad h32
    have hclen : ((s.data.drop s.pos).take 32).length = 32 := by
      rw [hca]; omega
    have hr : read_data_from_stream 32 s =
        .ok ((s.data.drop s.pos).take 32, { s with pos := s.pos + 32 }) := by
      unfold read_data_from_stream Stream.read
      simp only [hclen]
      simp
    have hnorm : normalize_raw_data 32 (bits / 8) true ((s.data.drop s.pos).take 32) =
        .ok (((s.data.drop s.pos).take 32).drop (32 - bits / 8)) := by
      unfold normalize_raw_data
      rw [if_neg (by simp [hpad])]
      simp
    constructor
    · simp only [Decoder.decode]
      unfold decode_uint_raw
      rw [hr]
      simp only [ebind_ok]
      rw [hnorm]
      simp only [ebind_ok]
    · have hdivle : bits / 8 ≤ 32 := by omega
      have hmem : ∀ x ∈ ((s.data.drop s.pos).take 32).drop (32 - bits / 8), x < 256 :=
        fun x hx => hbytes x (List.drop_subset _ _ (List.take_subset _ _ (List.drop_subset _ _ hx)))
      have hlen3 : (((s.data.drop s.pos).take 32).drop (32 - bits / 8)).length = bits / 8 := by
        rw [List.length_drop, hclen]
        omega
      have hblt := big_endian_lt _ hmem
      rw [hlen3] at hblt
      have hpow : (256 : Nat) ^ (bits / 8) = 2 ^ bits := by
        rw [show (256 : Nat) = 2 ^ 8 from rfl, ← Nat.pow_mul,
          Nat.mul_div_cancel' (Nat.dvd_of_mod_eq_zero hmod)]
      rw [hpow] at hblt
      exact hblt


/-- Claim C8 witness: the characterization applied to a `uint8` word
holding 5. -/
theorem c8_uint_witness :
    Decoder.decode (.UIntDecoder 8) ⟨c8Word, 0⟩ =
      .ok (.int (big_endian_to_int (((c8Word.drop 0).take 32).drop (32 - 8 / 8))),
        ⟨c8Word, 0 + 32⟩)
    ∧ big_endian_to_int (((c8Word.drop 0).take 32).drop (32 - 8 / 8)) < 2 ^ 8 :=
  (c8_uint_decode_characterized 8 (by decide) (by decide) (by decide) ⟨c8Word, 0⟩
    (by decide)).2.2 (by decide) (by decide)

/-- Claim C9: decoding never mutates the stream bytes — every decoder,
`HeadTailDecoder`, and `MultiDecoder` returns a stream with the same
contents, only the cursor moved — and after a dynamic member is decoded
through an offset the cursor sits exactly at the anchor, 32 bytes past
where the offset word began, wherever the recursive decode wandered. -/
theorem c9_decode_frame :
    (∀ (d : Decoder) (s : Stream) (v : Value) (s' : Stream),
        d.decode s = .ok (v, s') → s'.data = s.data)
    ∧ (∀ (sub : Decoder) (s : Stream) (v : Value) (s' : Stream),
        head_tail_decode sub s = .ok (v, s') → s'.data = s.data ∧ s'.pos = s.pos + 32)
    ∧ (∀ (ds : List Decoder) (s : Stream) (vs : List Value) (s' : Stream),
        multi_decode ds s = .ok (vs, s') → s'.data = s.data) :=
  ⟨decode_data_pres, head_tail_frame, multi_decode_data⟩

/-- Claim C9 witness: the frame property applied to a concrete head-tail
decode. -/
theorem c9_frame_witness :
    (Stream.mk c9Data 32).data = (Stream.mk c9Data 0).data
      ∧ (Stream.mk c9Data 32).pos = (Stream.mk c9Data 0).pos + 32 :=
  c9_decode_frame.2.1 .StringDecoder ⟨c9Data, 0⟩ (.bytes [99]) ⟨c9Data, 32⟩ rfl

/-- Claim C10: the component regex is applied as a prefix match, so the
malformed descriptor `uint256abc` is not rejected: the trailing `abc`
after the size component is silently discarded and `process_type` returns
the same `(base, sub, arrlist)` triple as for `uint256`. -/
theorem c10_prefix_match_discards_trailing :
    process_type "uint256abc".toList = .ok ("uint".toList, "256".toList, [])
    ∧ process_type "uint256abc".toList = process_type "uint256".toList :=
  ⟨rfl, rfl⟩

end EthAbi
